import Mathlib

/-!
Verification development for the ai-markdown-checker repository.

Strings of the Python source are modelled as `List Char`; Python text
operations (`str.find`, `str.startswith`, slicing, `str.strip`,
`str.replace(old, new, 1)`, `str.split(sep, 2)`) are given explicit
executable counterparts.  The label ledger (`checker_process_markdown.write_to_txt`,
`data_parser.split_label`), the parsers (`data_parser.parse_ai_json`,
`data_parser.load_change_out`, `load_filtered_change_lines`), the sentence
segmenter (`checker_process_markdown.split_into_sentences` and helpers) and
the review reconciler loop (`checker.mode_review_changes`,
`checker.replace_sentence_in_file`) are embedded from the source.
-/

namespace MdChecker

/-- ASCII whitespace, modelling the character class Python's `str.strip`
and the segmenter's regular expressions treat as whitespace. -/
def isSpace (c : Char) : Bool :=
  c = ' ' || c = '\t' || c = '\n' || c = '\r' || c = '\x0b' || c = '\x0c'

/-- Python `str.strip()`. -/
def pyStrip (s : List Char) : List Char :=
  ((s.dropWhile isSpace).reverse.dropWhile isSpace).reverse

/-- Python `str.lower()`, restricted to ASCII letters. -/
def pyLower (s : List Char) : List Char :=
  s.map (fun c => if 'A' ≤ c ∧ c ≤ 'Z' then Char.ofNat (c.toNat + 32) else c)

/-- Predicate `isPre pat s` holds when `pat` occurs at the very start of `s`
(Python `s.startswith(pat)`). -/
def isPre : List Char → List Char → Bool
  | [], _ => true
  | _ :: _, [] => false
  | a :: as, b :: bs => if a = b then isPre as bs else false

/-- Index of the first occurrence of `sub` in `s`, as Python `s.find(sub)`
(with `none` for Python's `-1`). -/
def findSub (sub : List Char) : List Char → Option Nat
  | [] => if isPre sub [] then some 0 else none
  | a :: t => if isPre sub (a :: t) then some 0 else (findSub sub t).map (· + 1)

/-- Substring test, Python's `sub in s`. -/
def hasSub (sub s : List Char) : Bool :=
  (findSub sub s).isSome

/-- Python `s.find(sub, start)`. -/
def pyFind (s sub : List Char) (start : Nat) : Option Nat :=
  (findSub sub (s.drop start)).map (· + start)

/-- Python `s.replace(old, new, 1)`: replace the first occurrence only. -/
def pyReplace1 (s old new : List Char) : List Char :=
  match findSub old s with
  | none => s
  | some k => s.take k ++ new ++ s.drop (k + old.length)

/-- Python `s.split(c)` on a single-character separator (keeps empty pieces). -/
def splitOnChar (c : Char) : List Char → List (List Char)
  | [] => [[]]
  | a :: t =>
    if a = c then [] :: splitOnChar c t
    else
      match splitOnChar c t with
      | [] => [[a]]
      | h :: r => (a :: h) :: r

/-- Python `s.split(sep, 2)` for a non-empty separator: at most two splits,
scanning left to right with non-overlapping separator occurrences. -/
def pySplit2 (sep s : List Char) : List (List Char) :=
  match findSub sep s with
  | none => [s]
  | some i =>
    match findSub sep (s.drop (i + sep.length)) with
    | none => [s.take i, s.drop (i + sep.length)]
    | some j =>
      [s.take i, (s.drop (i + sep.length)).take j,
        (s.drop (i + sep.length)).drop (j + sep.length)]

/-! ### Change ledger: label writing and parsing -/

/-- Decimal digit character for `d ≤ 9`. -/
def digitChar : Nat → Char
  | 0 => '0' | 1 => '1' | 2 => '2' | 3 => '3' | 4 => '4'
  | 5 => '5' | 6 => '6' | 7 => '7' | 8 => '8' | _ => '9'

/-- Decimal digits, most significant first; the fuel argument only bounds
the recursion depth and is irrelevant once at least `n + 1`. -/
def natDigitsAux : Nat → Nat → List Char
  | 0, _ => []
  | fuel + 1, n =>
    if n < 10 then [digitChar n]
    else natDigitsAux fuel (n / 10) ++ [digitChar (n % 10)]

/-- Decimal digits of a natural number, most significant first. -/
def natDigits (n : Nat) : List Char :=
  natDigitsAux (n + 1) n

/-- Python `f"{n:06d}"`: decimal rendering zero-padded to width 6. -/
def pad6 (n : Nat) : List Char :=
  List.replicate (6 - (natDigits n).length) '0' ++ natDigits n

/-- The label tag written by `checker_process_markdown.write_to_txt`:
`f"@@S{idx:06d}|{source_name}@@ "`. -/
def make_tag (ordinal : Nat) (source_name : List Char) : List Char :=
  ['@', '@', 'S'] ++ pad6 ordinal ++ ['|'] ++ source_name ++ ['@', '@', ' ']

/-- One output line of `write_to_txt`: the tag followed by the sentence. -/
def make_line (ordinal : Nat) (source_name content : List Char) : List Char :=
  make_tag ordinal source_name ++ content

/-- Embedding of `data_parser.split_label` (also duplicated verbatim in `checker.py`):
if the line starts with `"@@S"` and contains `"@@ "`, the label is
everything through that first `"@@ "` and the content is the rest. -/
def split_label (line : List Char) : List Char × List Char :=
  if isPre ['@', '@', 'S'] line then
    match findSub ['@', '@', ' '] line with
    | some e => (line.take (e + 3), line.drop (e + 3))
    | none => ([], line)
  else ([], line)

/-- ASCII decimal digit test (the `\d` of the label regex). -/
def isDigitCh (c : Char) : Bool := '0' ≤ c && c ≤ '9'

/-- Embedding of `data_parser.parse_label` / `checker.parse_label`: match the regex
`^@@S\d+\|([^@]+)@@\s*$` and return `(label, source file name)`,
or `("", "")` when the label does not match. -/
def parse_label (label : List Char) : List Char × List Char :=
  match label with
  | '@' :: '@' :: 'S' :: rest =>
    if rest.takeWhile isDigitCh = [] then ([], [])
    else
      match rest.dropWhile isDigitCh with
      | '|' :: r3 =>
        if r3.takeWhile (fun c => c != '@') = [] then ([], [])
        else
          match r3.dropWhile (fun c => c != '@') with
          | '@' :: '@' :: r5 =>
            if r5.all isSpace then (label, r3.takeWhile (fun c => c != '@'))
            else ([], [])
          | _ => ([], [])
      | _ => ([], [])
  | _ => ([], [])

/-! ### Suggestion-payload parsing (`data_parser.py`) -/

/-- Result record of `data_parser.parse_ai_json`. -/
structure AiJson where
  original_text : List Char
  error_type : List Char
  description : List Char
  checked_text : List Char
deriving DecidableEq

/-- First-match lookup in a string-to-string object, Python
`data.get(key, "")`. -/
def lookupD : List (List Char × List Char) → List Char → List Char
  | [], _ => []
  | (k, v) :: rest, key => if k = key then v else lookupD rest key

/-- Embedding of `data_parser.parse_ai_json`.  The external `json.loads` call is the
parameter `loads`: it returns the key/value pairs of the decoded JSON
object, or `none` when decoding raises (`JSONDecodeError`) or the decoded
value is not an object (`AttributeError` on `.get`).  On failure the
function returns empty classification fields and the stripped payload as
`checked_text`. -/
def parse_ai_json (loads : List Char → Option (List (List Char × List Char)))
    (text : List Char) : AiJson :=
  match loads text with
  | some data =>
    { original_text := lookupD data "original_text".toList
      error_type := lookupD data "error_type".toList
      description := lookupD data "description".toList
      checked_text := lookupD data "checked_text".toList }
  | none =>
    { original_text := []
      error_type := []
      description := []
      checked_text := pyStrip text }

/-- One value of the dictionary built by `data_parser.load_change_out`. -/
structure JRec where
  original_text : List Char
  error_type : List Char
  description : List Char
  checked_text : List Char
  raw : List Char
deriving DecidableEq

/-- The dictionary value `data_parser.load_change_out` stores for a line
whose payload is `content`. -/
def jrec_of (loads : List Char → Option (List (List Char × List Char)))
    (content : List Char) : JRec :=
  { original_text := (parse_ai_json loads content).original_text
    error_type := (parse_ai_json loads content).error_type
    description := (parse_ai_json loads content).description
    checked_text := (parse_ai_json loads content).checked_text
    raw := content }

/-- The loop body of `data_parser.load_change_out` for one raw line:
strip it, skip it when blank or label-less, otherwise bind its label to
the parsed payload, overwriting any earlier binding. -/
def lco_step (loads : List Char → Option (List (List Char × List Char)))
    (d : List Char → Option JRec) (raw : List Char) : List Char → Option JRec :=
  if pyStrip raw = [] then d
  else
    if (split_label (pyStrip raw)).1 = [] then d
    else
      fun l =>
        if l = (split_label (pyStrip raw)).1 then
          some (jrec_of loads (split_label (pyStrip raw)).2)
        else d l

/-- Embedding of `data_parser.load_change_out`: fold over the file's raw lines; strip
each, skip blank lines and lines without a label, and bind the label to
the parsed payload, later lines overwriting earlier ones.  The dictionary
is modelled as a function from labels to optional records. -/
def load_change_out (loads : List Char → Option (List (List Char × List Char)))
    (rawLines : List (List Char)) : List Char → Option JRec :=
  rawLines.foldl (lco_step loads) (fun _ => none)

/-- The `(label, content)` pair a raw ledger line contributes, or `none`
when the stripped line is blank or carries no label (the ledger's
`parse` skips such lines). -/
def bind_of (raw : List Char) : Option (List Char × List Char) :=
  if pyStrip raw = [] then none
  else
    if (split_label (pyStrip raw)).1 = [] then none
    else some (split_label (pyStrip raw))

/-- The ledger `parse` operation of the specification: the ordered list of
`(label, content)` pairs of the valid lines. -/
def parseLedger (rawLines : List (List Char)) : List (List Char × List Char) :=
  rawLines.filterMap bind_of

/-- The loop body of `load_filtered_change_lines` for one raw line: strip
it, skip it when blank, and keep its `(label, sentence)` pair when the
label is non-empty and belongs to the label set. -/
def lfcl_step (labels : List Char → Bool)
    (items : List (List Char × List Char)) (raw : List Char) :
    List (List Char × List Char) :=
  if pyStrip raw = [] then items
  else
    if (split_label (pyStrip raw)).1 ≠ [] ∧
        labels (split_label (pyStrip raw)).1 = true then
      items ++ [split_label (pyStrip raw)]
    else items

/-- Embedding of `data_parser.load_filtered_change_lines` (also duplicated verbatim in
`checker.py`): the change-file lines whose label lies in `labels`, in file
order.  The label set is modelled as a Boolean predicate. -/
def load_filtered_change_lines (rawLines : List (List Char))
    (labels : List Char → Bool) : List (List Char × List Char) :=
  rawLines.foldl (lfcl_step labels) []

/-- The join of the specification (§4.3): the parsed change records whose
label is present in the suggestion label set, in change-file order. -/
def join_spec (changeRecords : List (List Char × List Char))
    (suggestionLabels : List Char → Bool) : List (List Char × List Char) :=
  changeRecords.filter (fun p => suggestionLabels p.1)

/-! ### Front-matter stripping (`checker_process_markdown.extract_text_from_markdown`) -/

/-- The front-matter removal step of `extract_text_from_markdown`:
`parts = content.split('---', 2)`; when that yields three parts and the
first is whitespace only, the body is the third part, otherwise the whole
content. -/
def strip_front_matter (content : List Char) : List Char :=
  match pySplit2 ['-', '-', '-'] content with
  | [p0, _, p2] => if pyStrip p0 = [] then p2 else content
  | _ => content

/-- Declarative form of the front-matter rule actually implemented: if the
text before the first triple-dash occurrence is whitespace only and a
second, non-overlapping occurrence follows, everything through the end of
that second occurrence is removed; otherwise the content is unchanged. -/
def front_matter_spec (content : List Char) : List Char :=
  match findSub ['-', '-', '-'] content with
  | none => content
  | some i =>
    if pyStrip (content.take i) = [] then
      match findSub ['-', '-', '-'] (content.drop (i + 3)) with
      | none => content
      | some j => (content.drop (i + 3)).drop (j + 3)
    else content

/-! ### Sentence segmentation (`checker_process_markdown.split_into_sentences`) -/

/-- Sentence-terminal punctuation, Latin and full-width:
the class `[。！？.!?]` of `sentence_end_pattern`. -/
def isEndMark (c : Char) : Bool :=
  c = '。' || c = '！' || c = '？' || c = '.' || c = '!' || c = '?'

/-- Closing brackets and quotes: the class `[）”’」』"'\)\]\}]` of
`sentence_end_pattern`. -/
def isCloseQ (c : Char) : Bool :=
  c = '）' || c = '”' || c = '’' || c = '」' || c = '』' || c = '"' ||
  c = '\'' || c = ')' || c = ']' || c = '}'

/-- Length of the match of `sentence_end_pattern` at the start of `s`, if
any: marks then optional closers, or closers then marks, or marks alone,
each run maximal. -/
def sentMatchAt (s : List Char) : Option Nat :=
  if s.takeWhile isEndMark ≠ [] then
    some ((s.takeWhile isEndMark).length +
      ((s.drop (s.takeWhile isEndMark).length).takeWhile isCloseQ).length)
  else
    if s.takeWhile isCloseQ ≠ [] then
      if (s.drop (s.takeWhile isCloseQ).length).takeWhile isEndMark ≠ [] then
        some ((s.takeWhile isCloseQ).length +
          ((s.drop (s.takeWhile isCloseQ).length).takeWhile isEndMark).length)
      else none
    else none

/-- Embedding of `sentence_end_pattern.search(s).end()`: end index of the leftmost
match of the terminal-punctuation cluster, if any. -/
def sentSearchEnd : List Char → Option Nat
  | [] => none
  | a :: t =>
    match sentMatchAt (a :: t) with
    | some len => some len
    | none => (sentSearchEnd t).map (· + 1)

/-- The inner scan of `find_inline_style_ranges` for one marker: repeated
`text.find` for an opening and then a closing occurrence, recording
`(start, end + len(marker), marker)` intervals.  The fuel argument only
bounds the loop and is irrelevant from `s.length + 1` on, since the scan
position strictly increases. -/
def scanMarker (s marker : List Char) : Nat → Nat → List (Nat × Nat × List Char)
  | 0, _ => []
  | fuel + 1, pos =>
    if pos < s.length then
      match pyFind s marker pos with
      | none => []
      | some start =>
        match pyFind s marker (start + marker.length) with
        | none => scanMarker s marker fuel (start + 1)
        | some e =>
          (start, e + marker.length, marker) ::
            scanMarker s marker fuel (e + marker.length)
    else []

/-- The markers of `find_inline_style_ranges`, longest first. -/
def styleMarkers : List (List Char) :=
  [['*', '*', '*'], ['*', '*'], ['~', '~'], ['*'], ['_']]

/-- Stable insertion for sorting ranges by start position. -/
def insertByStart (x : Nat × Nat × List Char) :
    List (Nat × Nat × List Char) → List (Nat × Nat × List Char)
  | [] => [x]
  | y :: ys => if y.1 ≤ x.1 then y :: insertByStart x ys else x :: y :: ys

/-- Embedding of `find_inline_style_ranges`: collect the intervals of every marker,
then sort them by start position (stably, as Python's `list.sort`). -/
def find_inline_style_ranges (s : List Char) : List (Nat × Nat × List Char) :=
  (styleMarkers.foldl (fun acc m => acc ++ scanMarker s m (s.length + 1) 0) []).foldl
    (fun sorted x => insertByStart x sorted) []

/-- Embedding of `is_inside_style`: first interval strictly containing `pos`, returning
`(true, its end)`, else `(false, pos)`. -/
def is_inside_style (pos : Nat) :
    List (Nat × Nat × List Char) → Bool × Nat
  | [] => (false, pos)
  | (s, e, _) :: rest =>
    if s < pos ∧ pos < e then (true, e) else is_inside_style pos rest

/-- Embedding of `find_sentence_boundary`: end of the sentence starting at `start_pos`.
No terminal cluster → end of text; cluster whose last character lies
strictly inside a style interval → end of that interval; otherwise the
cluster end itself. -/
def find_sentence_boundary (text : List Char) (start_pos : Nat)
    (ranges : List (Nat × Nat × List Char)) : Nat :=
  match sentSearchEnd (text.drop start_pos) with
  | none => text.length
  | some l =>
    if (is_inside_style (start_pos + l - 1) ranges).1 then
      (is_inside_style (start_pos + l - 1) ranges).2
    else start_pos + l

/-- Embedding of `re.sub(r'\s+', ' ', s)`: collapse every whitespace run to one space.
The fuel argument is irrelevant from `s.length` on. -/
def collapseWsAux : Nat → List Char → List Char
  | 0, s => s
  | _ + 1, [] => []
  | fuel + 1, c :: t =>
    if isSpace c then ' ' :: collapseWsAux fuel (t.dropWhile isSpace)
    else c :: collapseWsAux fuel t

/-- Embedding of `re.sub(r'\s+', ' ', s)`. -/
def collapseWs (s : List Char) : List Char :=
  collapseWsAux s.length s

/-- Length of the match of `\$\$.+?\$\$` (DOTALL, lazy) at the start of
`s`: opening `$$`, at least one character, then the nearest closing
`$$`. -/
def formulaMatchLen (s : List Char) : Option Nat :=
  if isPre ['$', '$'] s then (findSub ['$', '$'] (s.drop 3)).map (· + 5)
  else none

/-- Embedding of `re.sub(r'\$\$.+?\$\$', '', block, flags=re.DOTALL)`: left-to-right
scan deleting each leftmost lazy match.  Fuel is irrelevant from
`s.length` on, since every step consumes at least one character. -/
def pySubFormulaAux : Nat → List Char → List Char
  | 0, s => s
  | _ + 1, [] => []
  | fuel + 1, c :: t =>
    match formulaMatchLen (c :: t) with
    | some len => pySubFormulaAux fuel ((c :: t).drop len)
    | none => c :: pySubFormulaAux fuel t

/-- Embedding of `re.sub(r'\$\$.+?\$\$', '', block, flags=re.DOTALL)`. -/
def pySubFormula (s : List Char) : List Char :=
  pySubFormulaAux s.length s

/-- The per-line `while pos < len(text)` loop of `split_into_sentences`:
cut at `find_sentence_boundary`, keep the stripped, whitespace-collapsed
piece when non-empty, and advance — by one character when the boundary
made no progress.  Fuel is irrelevant from `text.length - pos` on. -/
def segment_line_loop (text : List Char) (ranges : List (Nat × Nat × List Char)) :
    Nat → Nat → List (List Char) → List (List Char)
  | 0, _, acc => acc
  | fuel + 1, pos, acc =>
    if pos < text.length then
      if pyStrip ((text.take (find_sentence_boundary text pos ranges)).drop pos) = [] then
        if find_sentence_boundary text pos ranges = pos then
          segment_line_loop text ranges fuel (pos + 1) acc
        else segment_line_loop text ranges fuel (find_sentence_boundary text pos ranges) acc
      else
        if find_sentence_boundary text pos ranges = pos then
          segment_line_loop text ranges fuel (pos + 1)
            (acc ++ [collapseWs (pyStrip ((text.take (find_sentence_boundary text pos ranges)).drop pos))])
        else
          segment_line_loop text ranges fuel (find_sentence_boundary text pos ranges)
            (acc ++ [collapseWs (pyStrip ((text.take (find_sentence_boundary text pos ranges)).drop pos))])
    else acc

/-- Embedding of `split_into_sentences`: per block remove `$$…$$` formula spans, split
on newlines, strip each line, and run the boundary-scanning loop,
accumulating sentences in order. -/
def split_into_sentences (text_blocks : List (List Char)) : List (List Char) :=
  text_blocks.foldl
    (fun acc block =>
      (splitOnChar '\n' (pySubFormula block)).foldl
        (fun acc2 line =>
          if pyStrip line = [] then acc2
          else
            segment_line_loop (pyStrip line)
              (find_inline_style_ranges (pyStrip line))
              ((pyStrip line).length + 1) 0 acc2)
        acc)
    []

/-! ### Review reconciler (`checker.mode_review_changes`) -/

/-- A resolved document location; `checker.py` carries resolved path
strings, of which only identity is used, so paths are abstract
identifiers. -/
abbrev DocPath := Nat

/-- The live document store: contents by path, `none` when reading the
file raises. -/
abbrev FsMap := DocPath → Option (List Char)

/-- One value of the dictionary built by `checker.load_change_out`
(fields `origin`, `suggestion`, `raw`). -/
structure OutRec where
  origin : List Char
  suggestion : List Char
  raw : List Char
deriving DecidableEq

/-- The reconciler session's interaction with the outside world:
`resolve` is `resolve_md_path` (source file name to live document
location, `none` when unresolvable), `input` is the user's raw answer at
a given record index, and `writeOk` tells whether the file write at a
given index succeeds. -/
structure Env where
  resolve : List Char → Option DocPath
  input : Nat → List Char
  writeOk : Nat → Bool

/-- Mutable session state: the document store, the persisted progress
record `(change_file, change_out_file, next_index)` (`none` when the
progress file is absent), and the accumulated failed pairs. -/
structure LoopSt where
  fs : FsMap
  progress : Option (DocPath × DocPath × Nat)
  failed : List (List Char × List Char)

/-- How a session ends: `quit` via the user's `q`, or `done` after the
last record. -/
inductive RunResult where
  | quit (st : LoopSt)
  | done (st : LoopSt)

/-- Embedding of `checker.replace_sentence_in_file`: read the document (`false` if the
read raises), require the sentence to occur, replace its first occurrence
and write the file back (`false`, with the store unchanged, if the write
fails). -/
def replace_sentence_in_file (writeOk : Bool) (fs : FsMap) (p : DocPath)
    (old_sentence new_sentence : List Char) : Bool × FsMap :=
  match fs p with
  | none => (false, fs)
  | some content =>
    if hasSub old_sentence content = false then (false, fs)
    else
      if writeOk then
        (true, fun q =>
          if q = p then some (pyReplace1 content old_sentence new_sentence)
          else fs q)
      else (false, fs)

/-- Step 1 of the loop body: parse the label and resolve the source file
name through `resolve_md_path` (`md_path` stays `None` for an invalid
label). -/
def md_path_of (env : Env) (label : List Char) : Option DocPath :=
  if (parse_label label).2 = [] then none
  else env.resolve (parse_label label).2

/-- The failed pair recorded for a record that could not be applied: the
original change line, and the label with the raw suggestion payload (or
the parsed suggestion) when present. -/
def failed_entry (ai : Option OutRec) (label sentence : List Char) :
    List Char × List Char :=
  (label ++ sentence,
    match ai with
    | some r =>
      if r.raw ≠ [] then label ++ r.raw
      else if r.suggestion ≠ [] then label ++ r.suggestion
      else label
    | none => label)

/-- State change for a record marked failed at index `idx`: append the
failed pair and persist the cursor at `idx + 1`. -/
def fail_push (ai : Option OutRec) (label sentence : List Char)
    (cp op : DocPath) (idx : Nat) (st : LoopSt) : LoopSt :=
  { st with
    failed := st.failed ++ [failed_entry ai label sentence]
    progress := some (cp, op, idx + 1) }

/-- The `for idx in range(start_index, len(filtered_lines))` loop of
`mode_review_changes`, processing the remaining `(label, sentence)` pairs
from index `idx` on.  Per record: resolve the path and pre-check that the
sentence still occurs in the document (else mark failed, persist
`idx + 1`, continue); otherwise read the user's decision — `q` persists
the cursor at `idx` and quits, an empty answer skips, any other text is
applied through `replace_sentence_in_file`, a failed replacement marking
the record failed; the cursor is persisted at `idx + 1` after each
completed record.  After the last record the progress record is
cleared. -/
def review_go (env : Env) (data : List Char → Option OutRec)
    (cp op : DocPath) :
    List (List Char × List Char) → Nat → LoopSt → RunResult
  | [], _, st => .done { st with progress := none }
  | (label, sentence) :: rest, idx, st =>
    match md_path_of env label with
    | none =>
      review_go env data cp op rest (idx + 1)
        (fail_push (data label) label sentence cp op idx st)
    | some p =>
      match st.fs p with
      | none =>
        review_go env data cp op rest (idx + 1)
          (fail_push (data label) label sentence cp op idx st)
      | some content =>
        if hasSub sentence content = false then
          review_go env data cp op rest (idx + 1)
            (fail_push (data label) label sentence cp op idx st)
        else
          if pyLower (pyStrip (env.input idx)) = ['q'] then
            .quit { st with progress := some (cp, op, idx) }
          else
            if pyStrip (env.input idx) = [] then
              review_go env data cp op rest (idx + 1)
                { st with progress := some (cp, op, idx + 1) }
            else
              match replace_sentence_in_file (env.writeOk idx) st.fs p
                  sentence (pyStrip (env.input idx)) with
              | (true, fs') =>
                review_go env data cp op rest (idx + 1)
                  { st with fs := fs', progress := some (cp, op, idx + 1) }
              | (false, fs') =>
                review_go env data cp op rest (idx + 1)
                  { fs := fs'
                    failed := st.failed ++ [failed_entry (data label) label sentence]
                    progress := some (cp, op, idx + 1) }

/-- The session-start logic of `mode_review_changes` (progress loading):
given the stored progress record and the session's resolved path pair,
the start index and the progress record after the comparison — stored
index reused when the paths match and the index is in range, the record
cleared when the paths match but the index is out of range, and a fresh
record at index 0 when the paths differ or nothing is stored. -/
def resume_init (stored : Option (DocPath × DocPath × Nat))
    (cp op : DocPath) (n : Nat) : Nat × Option (DocPath × DocPath × Nat) :=
  match stored with
  | some (c, o, k) =>
    if c = cp ∧ o = op then
      if k < n then (k, some (c, o, k)) else (0, none)
    else (0, some (cp, op, 0))
  | none => (0, some (cp, op, 0))

/-- A full reconciler session over the joined records `lines`: apply the
resume rule, then run the review loop from the chosen start index. -/
def run_review (env : Env) (data : List Char → Option OutRec)
    (lines : List (List Char × List Char)) (cp op : DocPath)
    (stored : Option (DocPath × DocPath × Nat)) (fs0 : FsMap) : RunResult :=
  review_go env data cp op
    (lines.drop (resume_init stored cp op lines.length).1)
    (resume_init stored cp op lines.length).1
    { fs := fs0
      progress := (resume_init stored cp op lines.length).2
      failed := [] }

/-! ### Concrete fixtures for evaluating the theorems -/

/-- A `json.loads` stand-in for payloads that fail to decode (such as the
plain word `hello`, which is not valid JSON). -/
def loadsNone : List Char → Option (List (List Char × List Char)) :=
  fun _ => none

/-- Concrete document store: every path holds `"hi. x."`. -/
def fsW : FsMap := fun _ => some ("hi. x.".toList)

/-- Concrete session state over `fsW` with no progress record. -/
def stW : LoopSt := { fs := fsW, progress := none, failed := [] }

/-- Concrete suggestion dictionary with no entries. -/
def dataW : List Char → Option OutRec := fun _ => none

/-- Concrete label, as written for ordinal 1 of `a.md`. -/
def lblW : List Char := make_tag 1 ("a.md".toList)

/-- Environment whose user answers `" Q\t"` (a quit) at every record. -/
def envQuit : Env :=
  { resolve := fun _ => some 0, input := fun _ => " Q\t".toList,
    writeOk := fun _ => true }

/-- Environment whose user answers `" z. "` and whose writes succeed. -/
def envEdit : Env :=
  { resolve := fun _ => some 0, input := fun _ => " z. ".toList,
    writeOk := fun _ => true }

/-- Environment whose user answers `" z. "` but whose writes fail. -/
def envEditBad : Env :=
  { resolve := fun _ => some 0, input := fun _ => " z. ".toList,
    writeOk := fun _ => false }

/-- Environment that cannot resolve any source file name. -/
def envNoRes : Env :=
  { resolve := fun _ => none, input := fun _ => [], writeOk := fun _ => true }

/-! ### Helper lemmas on the string model -/

theorem hasSub_cons (sub : List Char) (a : Char) (t : List Char) :
    hasSub sub (a :: t) = (isPre sub (a :: t) || hasSub sub t) := by
  by_cases h : isPre sub (a :: t) = true
  · simp [hasSub, findSub, h]
  · simp [hasSub, findSub, h, Bool.eq_false_iff.mpr h]

theorem findSub_isPre {sub : List Char} :
    ∀ {s : List Char} {k : Nat}, findSub sub s = some k →
      isPre sub (s.drop k) = true := by
  intro s
  induction s with
  | nil =>
    intro k h
    simp only [findSub] at h
    by_cases hp : isPre sub [] = true
    · simp [hp] at h
      subst h
      simpa using hp
    · simp [Bool.eq_false_iff.mpr hp] at h
  | cons a t ih =>
    intro k h
    by_cases hp : isPre sub (a :: t) = true
    · simp only [findSub, if_pos hp, Option.some.injEq] at h
      subst h
      simpa using hp
    · simp only [findSub, if_neg hp, Option.map_eq_some'] at h
      obtain ⟨k', hk', rfl⟩ := h
      simpa using ih hk'

theorem findSub_min {sub : List Char} :
    ∀ {s : List Char} {k : Nat}, findSub sub s = some k →
      ∀ j, j < k → isPre sub (s.drop j) = false := by
  intro s
  induction s with
  | nil =>
    intro k h j hj
    simp only [findSub] at h
    by_cases hp : isPre sub [] = true
    · simp [hp] at h; omega
    · simp [Bool.eq_false_iff.mpr hp] at h
  | cons a t ih =>
    intro k h j hj
    by_cases hp : isPre sub (a :: t) = true
    · simp only [findSub, if_pos hp, Option.some.injEq] at h
      omega
    · simp only [findSub, if_neg hp, Option.map_eq_some'] at h
      obtain ⟨k', hk', rfl⟩ := h
      match j with
      | 0 => simpa using Bool.eq_false_iff.mpr hp
      | j' + 1 => simpa using ih hk' j' (by omega)

theorem take_len_append (l₁ l₂ : List Char) : (l₁ ++ l₂).take l₁.length = l₁ := by
  induction l₁ with
  | nil => simp
  | cons a t ih => simp [ih]

theorem drop_len_append (l₁ l₂ : List Char) : (l₁ ++ l₂).drop l₁.length = l₂ := by
  induction l₁ with
  | nil => simp
  | cons a t ih => simp [ih]

theorem findSub_atat (m c : List Char) (hm : hasSub ['@', '@'] m = false) :
    findSub ['@', '@', ' '] (m ++ '@' :: '@' :: ' ' :: c) = some m.length := by
  induction m with
  | nil => simp [findSub, isPre]
  | cons a m' ih =>
    have hsplit := hasSub_cons ['@', '@'] a m'
    rw [hm] at hsplit
    have hm' : hasSub ['@', '@'] m' = false := by
      rcases Bool.or_eq_false_iff.mp hsplit.symm with ⟨_, h⟩
      exact h
    have hphead : isPre ['@', '@'] (a :: m') = false := by
      rcases Bool.or_eq_false_iff.mp hsplit.symm with ⟨h, _⟩
      exact h
    have hpre : isPre ['@', '@', ' '] (a :: (m' ++ '@' :: '@' :: ' ' :: c)) = false := by
      cases m' with
      | nil => simp [isPre, ite_self]
      | cons b m'' =>
        by_cases ha : '@' = a
        · by_cases hb : '@' = b
          · exfalso
            rw [← ha, ← hb] at hphead
            simp [isPre] at hphead
          · simp [isPre, if_neg hb]
        · simp [isPre, if_neg ha]
    rw [List.cons_append, findSub,
      if_neg (by simp [hpre] : ¬isPre ['@', '@', ' '] (a :: (m' ++ '@' :: '@' :: ' ' :: c)) = true)]
    rw [ih hm']
    simp

theorem hasSub_atat_cons (a : Char) (t : List Char) (ha : a ≠ '@')
    (ht : hasSub ['@', '@'] t = false) : hasSub ['@', '@'] (a :: t) = false := by
  rw [hasSub_cons, ht]
  have hp : isPre ['@', '@'] (a :: t) = false := by
    cases t with
    | nil => simp [isPre, ite_self]
    | cons b t' => simp [isPre, if_neg (Ne.symm ha)]
  simp [hp]

theorem hasSub_atat_append (pre t : List Char) (hp : ∀ c ∈ pre, c ≠ '@')
    (ht : hasSub ['@', '@'] t = false) : hasSub ['@', '@'] (pre ++ t) = false := by
  induction pre with
  | nil => simpa using ht
  | cons a pre' ih =>
    rw [List.cons_append]
    exact hasSub_atat_cons a _ (hp a (by simp))
      (ih (fun c hc => hp c (by simp [hc])))

theorem digitChar_ne_at (d : Nat) : digitChar d ≠ '@' := by
  unfold digitChar
  split <;> decide

theorem natDigitsAux_ne_at (fuel : Nat) : ∀ (n : Nat), ∀ c ∈ natDigitsAux fuel n, c ≠ '@' := by
  induction fuel with
  | zero => simp [natDigitsAux]
  | succ f ih =>
    intro n c hc
    by_cases h : n < 10
    · simp [natDigitsAux, h] at hc
      subst hc
      exact digitChar_ne_at n
    · simp [natDigitsAux, h] at hc
      rcases hc with hc | hc
      · exact ih _ c hc
      · subst hc
        exact digitChar_ne_at _

theorem pad6_ne_at (n : Nat) : ∀ c ∈ pad6 n, c ≠ '@' := by
  intro c hc
  simp only [pad6, natDigits, List.mem_append, List.mem_replicate] at hc
  rcases hc with ⟨_, rfl⟩ | hc
  · decide
  · exact natDigitsAux_ne_at _ _ c hc

/-- C5: writing a tagged line and splitting it with `split_label`
reproduces the `(tag, content)` pair, for sentinel-free inputs. -/
theorem claim_C5 (ordinal : Nat) (source_id content : List Char)
    (_h1 : 0 < ordinal)
    (h2 : hasSub ['@', '@'] source_id = false)
    (_h3 : hasSub ['@', '@'] content = false) :
    split_label (make_line ordinal source_id content) =
      (make_tag ordinal source_id, content) := by
  have hmid : hasSub ['@', '@'] ('S' :: (pad6 ordinal ++ '|' :: source_id)) = false := by
    have hsh : ('S' :: (pad6 ordinal ++ '|' :: source_id)) =
        ('S' :: pad6 ordinal ++ ['|']) ++ source_id := by simp
    rw [hsh]
    refine hasSub_atat_append _ _ ?_ h2
    intro c hc
    simp at hc
    rcases hc with rfl | hc | rfl
    · decide
    · exact pad6_ne_at ordinal c hc
    · decide
  have hline : make_line ordinal source_id content =
      '@' :: '@' :: (('S' :: (pad6 ordinal ++ '|' :: source_id)) ++
        '@' :: '@' :: ' ' :: content) := by
    simp [make_line, make_tag]
  have hf := findSub_atat ('S' :: (pad6 ordinal ++ '|' :: source_id)) content hmid
  have hfind : findSub ['@', '@', ' '] (make_line ordinal source_id content) =
      some (('S' :: (pad6 ordinal ++ '|' :: source_id)).length + 1 + 1) := by
    rw [hline]
    rw [findSub, if_neg (by simp [isPre] : ¬isPre ['@', '@', ' ']
      ('@' :: '@' :: (('S' :: (pad6 ordinal ++ '|' :: source_id)) ++
        '@' :: '@' :: ' ' :: content)) = true)]
    rw [findSub, if_neg (by simp [isPre] : ¬isPre ['@', '@', ' ']
      ('@' :: (('S' :: (pad6 ordinal ++ '|' :: source_id)) ++
        '@' :: '@' :: ' ' :: content)) = true)]
    rw [hf]
    simp
  have hpre3 : isPre ['@', '@', 'S'] (make_line ordinal source_id content) = true := by
    rw [hline]
    simp [isPre]
  have htag : make_line ordinal source_id content =
      make_tag ordinal source_id ++ content := rfl
  have hlen : (make_tag ordinal source_id).length =
      ('S' :: (pad6 ordinal ++ '|' :: source_id)).length + 1 + 1 + 3 := by
    simp [make_tag]
    omega
  rw [split_label, if_pos hpre3, hfind, htag]
  show (List.take ((('S' :: (pad6 ordinal ++ '|' :: source_id)).length + 1 + 1) + 3)
      (make_tag ordinal source_id ++ content),
    List.drop ((('S' :: (pad6 ordinal ++ '|' :: source_id)).length + 1 + 1) + 3)
      (make_tag ordinal source_id ++ content)) =
    (make_tag ordinal source_id, content)
  rw [← hlen, take_len_append, drop_len_append]

/-- C5 witness: a concrete round trip through `make_line` and
`split_label`. -/
theorem claim_C5_witness :
    0 < 1 ∧ hasSub ['@', '@'] "a.md".toList = false ∧
    hasSub ['@', '@'] "hi. x.".toList = false ∧
    split_label (make_line 1 "a.md".toList "hi. x.".toList) =
      (make_tag 1 "a.md".toList, "hi. x.".toList) :=
  ⟨by decide, by decide, by decide,
    claim_C5 1 "a.md".toList "hi. x.".toList (by decide) (by decide) (by decide)⟩

theorem lfcl_step_char (labels : List Char → Bool)
    (items : List (List Char × List Char)) (raw : List Char) :
    lfcl_step labels items raw =
      items ++ (match bind_of raw with
        | some p => if labels p.1 = true then [p] else []
        | none => []) := by
  unfold lfcl_step bind_of
  by_cases h1 : pyStrip raw = []
  · simp [h1]
  · by_cases h2 : (split_label (pyStrip raw)).1 = []
    · simp [h1, h2]
    · by_cases h3 : labels (split_label (pyStrip raw)).1 = true
      · simp [h1, h2, h3]
      · simp [h1, h2, h3]

theorem lfcl_foldl_acc (labels : List Char → Bool) :
    ∀ (rawLines : List (List Char)) (acc : List (List Char × List Char)),
      rawLines.foldl (lfcl_step labels) acc =
        acc ++ rawLines.foldl (lfcl_step labels) [] := by
  intro rawLines
  induction rawLines with
  | nil => simp
  | cons r t ih =>
    intro acc
    rw [List.foldl_cons, List.foldl_cons, ih (lfcl_step labels acc r),
      ih (lfcl_step labels [] r), lfcl_step_char, lfcl_step_char labels [] r]
    simp

/-- C4: the join computed by the reconciler is exactly the parsed change
records filtered to the suggestion label set, in change-file order, and
is a sublist of the parsed change file. -/
theorem claim_C4 (rawLines : List (List Char)) (labels : List Char → Bool) :
    load_filtered_change_lines rawLines labels =
      join_spec (parseLedger rawLines) labels ∧
    List.Sublist (load_filtered_change_lines rawLines labels)
      (parseLedger rawLines) := by
  have hmain : load_filtered_change_lines rawLines labels =
      join_spec (parseLedger rawLines) labels := by
    induction rawLines with
    | nil => rfl
    | cons r t ih =>
      unfold load_filtered_change_lines at ih ⊢
      rw [List.foldl_cons, lfcl_foldl_acc, lfcl_step_char, ih]
      unfold join_spec parseLedger
      cases hb : bind_of r with
      | none => simp [hb]
      | some p =>
        by_cases hl : labels p.1 = true
        · simp [hb, hl]
        · simp [hb, hl]
  refine ⟨hmain, ?_⟩
  rw [hmain]
  exact List.filter_sublist _

theorem lco_step_char (loads : List Char → Option (List (List Char × List Char)))
    (d : List Char → Option JRec) (raw : List Char) :
    lco_step loads d raw =
      (match bind_of raw with
        | some p => fun l => if l = p.1 then some (jrec_of loads p.2) else d l
        | none => d) := by
  unfold lco_step bind_of
  by_cases h1 : pyStrip raw = []
  · simp [h1]
  · by_cases h2 : (split_label (pyStrip raw)).1 = []
    · simp [h1, h2]
    · simp [h1, h2]

/-- C10: in `load_change_out` a later line bearing a label overwrites any
earlier binding of that label, and a line not binding a label leaves the
dictionary unchanged at that label — so each label maps to the parsed
data of the last line that bears it. -/
theorem claim_C10 :
    (∀ (loads : List Char → Option (List (List Char × List Char)))
        (lines : List (List Char)) (raw label content : List Char),
        bind_of raw = some (label, content) →
        load_change_out loads (lines ++ [raw]) label =
          some (jrec_of loads content)) ∧
    (∀ loads lines raw l,
        bind_of raw = none →
        load_change_out loads (lines ++ [raw]) l =
          load_change_out loads lines l) ∧
    (∀ loads lines raw l label content,
        bind_of raw = some (label, content) → l ≠ label →
        load_change_out loads (lines ++ [raw]) l =
          load_change_out loads lines l) := by
  refine ⟨?_, ?_, ?_⟩
  · intro loads lines raw label content h
    unfold load_change_out
    rw [List.foldl_append, List.foldl_cons, List.foldl_nil, lco_step_char, h]
    simp
  · intro loads lines raw l h
    unfold load_change_out
    rw [List.foldl_append, List.foldl_cons, List.foldl_nil, lco_step_char, h]
  · intro loads lines raw l label content h hne
    unfold load_change_out
    rw [List.foldl_append, List.foldl_cons, List.foldl_nil, lco_step_char, h]
    simp [hne]

/-- C10 witness: two lines with the same label; the stored record is the
second line's parsed payload. -/
theorem claim_C10_witness :
    bind_of ("@@S000001|a.md@@ first".toList) =
      some ("@@S000001|a.md@@ ".toList, "first".toList) ∧
    bind_of ("@@S000001|a.md@@ second".toList) =
      some ("@@S000001|a.md@@ ".toList, "second".toList) ∧
    load_change_out loadsNone
        ["@@S000001|a.md@@ first".toList, "@@S000001|a.md@@ second".toList]
        ("@@S000001|a.md@@ ".toList) =
      some (jrec_of loadsNone "second".toList) :=
  ⟨by decide, by decide,
    (claim_C10.1 loadsNone ["@@S000001|a.md@@ first".toList]
      ("@@S000001|a.md@@ second".toList) ("@@S000001|a.md@@ ".toList)
      ("second".toList) (by decide))⟩

/-- C6 counterexample: the unparsable payload `hello` yields a record
whose `checked_text` field is the stripped payload, not empty — the claim
that all structured fields are empty fails. -/
theorem claim_C6_counterexample :
    loadsNone ("hello".toList) = none ∧
    (parse_ai_json loadsNone ("hello".toList)).checked_text = "hello".toList ∧
    (parse_ai_json loadsNone ("hello".toList)).checked_text ≠ [] := by
  refine ⟨rfl, by decide, by decide⟩

/-- C6 (amended): for an unparsable payload, the original text, error
type and description fields are empty, `checked_text` carries the
stripped payload, and the stored `raw` field carries the verbatim
payload. -/
theorem claim_C6 (loads : List Char → Option (List (List Char × List Char)))
    (payload : List Char) (h : loads payload = none) :
    parse_ai_json loads payload =
      { original_text := [], error_type := [], description := [],
        checked_text := pyStrip payload } ∧
    (jrec_of loads payload).raw = payload := by
  constructor
  · simp [parse_ai_json, h]
  · rfl

/-- C6 witness: the amended statement evaluated on the payload `hello`. -/
theorem claim_C6_witness :
    loadsNone (" hello ".toList) = none ∧
    (parse_ai_json loadsNone (" hello ".toList) =
      { original_text := [], error_type := [], description := [],
        checked_text := pyStrip (" hello ".toList) } ∧
    (jrec_of loadsNone (" hello ".toList)).raw = " hello ".toList) :=
  ⟨rfl, claim_C6 loadsNone (" hello ".toList) rfl⟩

/-- C8 counterexample: a document opening with a space before the
triple-dash sentinel is still stripped, so stripping does not happen
"only when the document opens with the sentinel". -/
theorem claim_C8_counterexample :
    strip_front_matter (" ---a---b".toList) = "b".toList ∧
    isPre ['-', '-', '-'] (" ---a---b".toList) = false ∧
    strip_front_matter (" ---a---b".toList) ≠ " ---a---b".toList := by
  refine ⟨by decide, by decide, by decide⟩

/-- C8 (amended): the extractor removes one leading metadata block
exactly when the text before the first triple-dash occurrence is
whitespace only and a second, non-overlapping occurrence follows,
removing everything through the end of that second occurrence; every
other document passes through unmodified. -/
theorem claim_C8 (content : List Char) :
    strip_front_matter content = front_matter_spec content := by
  unfold strip_front_matter front_matter_spec pySplit2
  cases h1 : findSub ['-', '-', '-'] content with
  | none => rfl
  | some i =>
    cases h2 : findSub ['-', '-', '-'] (content.drop (i + 3)) with
    | none =>
      by_cases hs : pyStrip (content.take i) = [] <;>
        simp [h2, hs]
    | some j =>
      by_cases hs : pyStrip (content.take i) = [] <;>
        simp [h2, hs]

/-- C1: quitting at index `i` persists the cursor at exactly `i`; a new
session against the same stored path pair with a stored index in range
starts the loop at that index, while a differing path pair or an
out-of-range index starts it at 0. -/
theorem claim_C1 :
    (∀ (env : Env) (data : List Char → Option OutRec) (cp op : DocPath)
        (label sentence : List Char) (rest : List (List Char × List Char))
        (i : Nat) (st : LoopSt) (p : DocPath) (content : List Char),
        md_path_of env label = some p →
        st.fs p = some content →
        hasSub sentence content = true →
        pyLower (pyStrip (env.input i)) = ['q'] →
        review_go env data cp op ((label, sentence) :: rest) i st =
          RunResult.quit { st with progress := some (cp, op, i) }) ∧
    (∀ (env : Env) (data : List Char → Option OutRec)
        (lines : List (List Char × List Char)) (cp op : DocPath)
        (k : Nat) (fs0 : FsMap),
        k < lines.length →
        run_review env data lines cp op (some (cp, op, k)) fs0 =
          review_go env data cp op (lines.drop k) k
            { fs := fs0, progress := some (cp, op, k), failed := [] }) ∧
    (∀ (env : Env) (data : List Char → Option OutRec)
        (lines : List (List Char × List Char)) (cp op c o : DocPath)
        (k : Nat) (fs0 : FsMap),
        ¬(c = cp ∧ o = op) →
        run_review env data lines cp op (some (c, o, k)) fs0 =
          review_go env data cp op lines 0
            { fs := fs0, progress := some (cp, op, 0), failed := [] }) ∧
    (∀ (env : Env) (data : List Char → Option OutRec)
        (lines : List (List Char × List Char)) (cp op : DocPath)
        (k : Nat) (fs0 : FsMap),
        lines.length ≤ k →
        run_review env data lines cp op (some (cp, op, k)) fs0 =
          review_go env data cp op lines 0
            { fs := fs0, progress := none, failed := [] }) := by
  refine ⟨?_, ?_, ?_, ?_⟩
  · intro env data cp op label sentence rest i st p content h1 h2 h3 h4
    simp [review_go, h1, h2, h3, h4]
  · intro env data lines cp op k fs0 hk
    simp [run_review, resume_init, hk]
  · intro env data lines cp op c o k fs0 hco
    simp [run_review, resume_init, hco]
  · intro env data lines cp op k fs0 hk
    simp [run_review, resume_init, Nat.not_lt.mpr hk]

/-- C1 witness: quit at a concrete record persists index 0, and the three
resume cases at concrete paths and indices. -/
theorem claim_C1_witness :
    (review_go envQuit dataW 0 1 [(lblW, "hi.".toList)] 0 stW =
      RunResult.quit { stW with progress := some (0, 1, 0) }) ∧
    (run_review envQuit dataW [(lblW, "hi.".toList)] 0 1 (some (0, 1, 0)) fsW =
      review_go envQuit dataW 0 1 ([(lblW, "hi.".toList)].drop 0) 0
        { fs := fsW, progress := some (0, 1, 0), failed := [] }) ∧
    (run_review envQuit dataW [(lblW, "hi.".toList)] 0 1 (some (2, 1, 0)) fsW =
      review_go envQuit dataW 0 1 [(lblW, "hi.".toList)] 0
        { fs := fsW, progress := some (0, 1, 0), failed := [] }) ∧
    (run_review envQuit dataW [(lblW, "hi.".toList)] 0 1 (some (0, 1, 5)) fsW =
      review_go envQuit dataW 0 1 [(lblW, "hi.".toList)] 0
        { fs := fsW, progress := none, failed := [] }) :=
  ⟨claim_C1.1 envQuit dataW 0 1 lblW ("hi.".toList) [] 0 stW 0 ("hi. x.".toList)
      (by decide) rfl (by decide) (by decide),
    claim_C1.2.1 envQuit dataW [(lblW, "hi.".toList)] 0 1 0 fsW (by decide),
    claim_C1.2.2.1 envQuit dataW [(lblW, "hi.".toList)] 0 1 2 1 0 fsW (by decide),
    claim_C1.2.2.2 envQuit dataW [(lblW, "hi.".toList)] 0 1 5 fsW (by decide)⟩

/-- C2: a record whose source file does not resolve, whose document
cannot be read, or whose sentence no longer occurs verbatim in the
document content, is appended (with its label, original change line and
raw suggestion) to the failed pairs, the cursor is persisted at `i + 1`,
and the loop continues with the next record without consulting the
user. -/
theorem claim_C2 (env : Env) (data : List Char → Option OutRec)
    (cp op : DocPath) (label sentence : List Char)
    (rest : List (List Char × List Char)) (i : Nat) (st : LoopSt) :
    (md_path_of env label = none →
      review_go env data cp op ((label, sentence) :: rest) i st =
        review_go env data cp op rest (i + 1)
          (fail_push (data label) label sentence cp op i st)) ∧
    (∀ p, md_path_of env label = some p → st.fs p = none →
      review_go env data cp op ((label, sentence) :: rest) i st =
        review_go env data cp op rest (i + 1)
          (fail_push (data label) label sentence cp op i st)) ∧
    (∀ p content, md_path_of env label = some p → st.fs p = some content →
      hasSub sentence content = false →
      review_go env data cp op ((label, sentence) :: rest) i st =
        review_go env data cp op rest (i + 1)
          (fail_push (data label) label sentence cp op i st)) := by
  refine ⟨?_, ?_, ?_⟩
  · intro h1
    simp [review_go, h1]
  · intro p h1 h2
    simp [review_go, h1, h2]
  · intro p content h1 h2 h3
    simp [review_go, h1, h2, h3]

/-- C2 witness: a concrete record whose sentence is absent from the
document is recorded as failed with the cursor moved past it. -/
theorem claim_C2_witness :
    hasSub ("gone.".toList) ("hi. x.".toList) = false ∧
    review_go envQuit dataW 0 1 [(lblW, "gone.".toList)] 0 stW =
      review_go envQuit dataW 0 1 [] 1
        (fail_push (dataW lblW) lblW ("gone.".toList) 0 1 0 stW) :=
  ⟨by decide,
    (claim_C2 envQuit dataW 0 1 lblW ("gone.".toList) [] 0 stW).2.2
      0 ("hi. x.".toList) (by decide) rfl (by decide)⟩

/-- C3: `replace_sentence_in_file` replaces exactly the first occurrence
of the original sentence and persists the file; on any failure — the
sentence absent, the read failing, or the write failing — it returns
`false` and leaves every document unchanged; in the loop a failed
replacement marks the record failed while a successful one does not, the
cursor advancing to `i + 1` either way. -/
theorem claim_C3 :
    (∀ (writeOk : Bool) (fs : FsMap) (p : DocPath) (old new : List Char),
        (replace_sentence_in_file writeOk fs p old new).1 = false →
        (replace_sentence_in_file writeOk fs p old new).2 = fs) ∧
    (∀ (writeOk : Bool) (fs : FsMap) (p : DocPath) (old new : List Char),
        (replace_sentence_in_file writeOk fs p old new).1 = true →
        ∃ content k, fs p = some content ∧
          findSub old content = some k ∧
          isPre old (content.drop k) = true ∧
          (∀ j, j < k → isPre old (content.drop j) = false) ∧
          (replace_sentence_in_file writeOk fs p old new).2 p =
            some (content.take k ++ new ++ content.drop (k + old.length)) ∧
          (∀ q, q ≠ p →
            (replace_sentence_in_file writeOk fs p old new).2 q = fs q)) ∧
    (∀ (env : Env) (data : List Char → Option OutRec) (cp op : DocPath)
        (label sentence : List Char) (rest : List (List Char × List Char))
        (i : Nat) (st : LoopSt) (p : DocPath) (content : List Char),
        md_path_of env label = some p →
        st.fs p = some content →
        hasSub sentence content = true →
        pyLower (pyStrip (env.input i)) ≠ ['q'] →
        pyStrip (env.input i) ≠ [] →
        ∀ ok fs',
          replace_sentence_in_file (env.writeOk i) st.fs p sentence
            (pyStrip (env.input i)) = (ok, fs') →
          review_go env data cp op ((label, sentence) :: rest) i st =
            review_go env data cp op rest (i + 1)
              (if ok then
                { st with fs := fs', progress := some (cp, op, i + 1) }
              else
                { fs := fs'
                  failed := st.failed ++
                    [failed_entry (data label) label sentence]
                  progress := some (cp, op, i + 1) })) := by
  refine ⟨?_, ?_, ?_⟩
  · intro writeOk fs p old new h
    unfold replace_sentence_in_file at h ⊢
    cases hfp : fs p with
    | none => rfl
    | some content =>
      rw [hfp] at h
      by_cases hsub : hasSub old content = false
      · simp [hsub]
      · by_cases hw : writeOk = true
        · exfalso
          simp [hsub, hw] at h
        · simp [hsub, Bool.eq_false_iff.mpr hw]
  · intro writeOk fs p old new h
    unfold replace_sentence_in_file at h ⊢
    cases hfp : fs p with
    | none =>
      rw [hfp] at h
      simp at h
    | some content =>
      rw [hfp] at h
      by_cases hsub : hasSub old content = false
      · simp [hsub] at h
      · have hsub' : hasSub old content = true := by
          cases h' : hasSub old content
          · exact absurd h' hsub
          · rfl
        by_cases hw : writeOk = true
        · obtain ⟨k, hk⟩ := Option.isSome_iff_exists.mp hsub'
          refine ⟨content, k, rfl, hk, findSub_isPre hk, findSub_min hk, ?_, ?_⟩
          · simp [hsub, hw, pyReplace1, hk]
          · intro q hq
            simp [hsub, hw, if_neg hq]
        · simp [hsub, Bool.eq_false_iff.mpr hw] at h
  · intro env data cp op label sentence rest i st p content
      h1 h2 h3 h4 h5 ok fs' hrep
    have h3' : (hasSub sentence content = false) = False := by simp [h3]
    cases ok with
    | true => simp [review_go, h1, h2, h3', h4, h5, hrep]
    | false => simp [review_go, h1, h2, h3', h4, h5, hrep]

/-- C3 witness: a concrete successful replacement rewrites exactly the
first occurrence, and a concrete failed write leaves the store
unchanged. -/
theorem claim_C3_witness :
    ((replace_sentence_in_file false fsW 0 ("hi.".toList) ("z.".toList)).1 =
      false →
      (replace_sentence_in_file false fsW 0 ("hi.".toList) ("z.".toList)).2 =
        fsW) ∧
    (∃ content k, fsW 0 = some content ∧
      findSub ("hi.".toList) content = some k ∧
      isPre ("hi.".toList) (content.drop k) = true ∧
      (∀ j, j < k → isPre ("hi.".toList) (content.drop j) = false) ∧
      (replace_sentence_in_file true fsW 0 ("hi.".toList) ("z.".toList)).2 0 =
        some (content.take k ++ "z.".toList ++
          content.drop (k + ("hi.".toList).length)) ∧
      (∀ q, q ≠ 0 →
        (replace_sentence_in_file true fsW 0 ("hi.".toList) ("z.".toList)).2 q =
          fsW q)) :=
  ⟨claim_C3.1 false fsW 0 ("hi.".toList) ("z.".toList),
    claim_C3.2.1 true fsW 0 ("hi.".toList) ("z.".toList) (by decide)⟩

theorem is_inside_style_mem :
    ∀ (ranges : List (Nat × Nat × List Char)) (pos e : Nat),
      is_inside_style pos ranges = (true, e) →
      ∃ s mk, (s, e, mk) ∈ ranges ∧ s < pos ∧ pos < e := by
  intro ranges
  induction ranges with
  | nil =>
    intro pos e h
    simp [is_inside_style] at h
  | cons r rest ih =>
    intro pos e h
    obtain ⟨s0, e0, mk0⟩ := r
    by_cases hc : s0 < pos ∧ pos < e0
    · rw [is_inside_style, if_pos hc] at h
      simp only [Prod.mk.injEq, true_and] at h
      subst h
      exact ⟨s0, mk0, by simp, hc.1, hc.2⟩
    · rw [is_inside_style, if_neg hc] at h
      obtain ⟨s, mk, hm, h1, h2⟩ := ih pos e h
      exact ⟨s, mk, by simp [hm], h1, h2⟩

theorem sentMatchAt_ge_one {s : List Char} {l : Nat}
    (h : sentMatchAt s = some l) : 1 ≤ l := by
  unfold sentMatchAt at h
  by_cases h1 : s.takeWhile isEndMark = []
  · by_cases h2 : s.takeWhile isCloseQ = []
    · simp [h1, h2] at h
    · by_cases h3 :
        (s.drop (s.takeWhile isCloseQ).length).takeWhile isEndMark = []
      · simp [h1, h2, h3] at h
      · simp [h1, h2, h3] at h
        have : (s.takeWhile isCloseQ).length ≠ 0 := by
          simpa using h2
        omega
  · simp [h1] at h
    have : (s.takeWhile isEndMark).length ≠ 0 := by
      simpa using h1
    omega

theorem sentSearchEnd_ge_one :
    ∀ {s : List Char} {l : Nat}, sentSearchEnd s = some l → 1 ≤ l := by
  intro s
  induction s with
  | nil => intro l h; simp [sentSearchEnd] at h
  | cons a t ih =>
    intro l h
    rw [sentSearchEnd] at h
    cases hm : sentMatchAt (a :: t) with
    | some len =>
      rw [hm] at h
      obtain rfl : len = l := by simpa using h
      exact sentMatchAt_ge_one hm
    | none =>
      rw [hm] at h
      simp only [Option.map_eq_some'] at h
      obtain ⟨l', hl', rfl⟩ := h
      omega

theorem boundary_gt (text : List Char) (ranges : List (Nat × Nat × List Char))
    (pos : Nat) (hlt : pos < text.length) :
    pos < find_sentence_boundary text pos ranges := by
  unfold find_sentence_boundary
  cases hs : sentSearchEnd (text.drop pos) with
  | none => exact hlt
  | some l =>
    have hl : 1 ≤ l := sentSearchEnd_ge_one hs
    rcases hI : is_inside_style (pos + l - 1) ranges with ⟨b, e⟩
    cases b with
    | false => simp [hI]; omega
    | true =>
      obtain ⟨s, mk, _, _, h2⟩ := is_inside_style_mem ranges _ _ hI
      simp [hI]
      omega

theorem segment_line_loop_fuel (text : List Char)
    (ranges : List (Nat × Nat × List Char)) :
    ∀ (n f₁ f₂ pos : Nat) (acc : List (List Char)),
      text.length - pos ≤ n → n ≤ f₁ → n ≤ f₂ →
      segment_line_loop text ranges f₁ pos acc =
        segment_line_loop text ranges f₂ pos acc := by
  intro n
  induction n with
  | zero =>
    intro f₁ f₂ pos acc h0 _ _
    have hge : ¬pos < text.length := by omega
    cases f₁ <;> cases f₂ <;> simp [segment_line_loop, hge]
  | succ m ih =>
    intro f₁ f₂ pos acc h0 h1 h2
    by_cases hlt : pos < text.length
    · obtain ⟨a, rfl⟩ : ∃ a, f₁ = a + 1 := ⟨f₁ - 1, by omega⟩
      obtain ⟨b, rfl⟩ : ∃ b, f₂ = b + 1 := ⟨f₂ - 1, by omega⟩
      have hne : ¬find_sentence_boundary text pos ranges = pos := by
        have := boundary_gt text ranges pos hlt
        omega
      have hnext : text.length - find_sentence_boundary text pos ranges ≤ m := by
        have := boundary_gt text ranges pos hlt
        omega
      rw [segment_line_loop, segment_line_loop]
      rw [if_pos hlt, if_pos hlt]
      by_cases hstrip :
        pyStrip ((text.take (find_sentence_boundary text pos ranges)).drop pos) = []
      · rw [if_pos hstrip, if_pos hstrip, if_neg hne, if_neg hne]
        exact ih a b _ acc hnext (by omega) (by omega)
      · rw [if_neg hstrip, if_neg hstrip, if_neg hne, if_neg hne]
        exact ih a b _ _ hnext (by omega) (by omega)
    · cases f₁ <;> cases f₂ <;> simp [segment_line_loop, hlt]

/-- C7: a terminal-punctuation cluster whose position lies strictly
inside an identified style interval makes the sentence boundary the end
of that interval instead of the cluster end, and on the block
`"A **B. C.** D."` segmentation yields exactly the two sentences
`"A **B. C.**"` and `"D."`, with no split inside the bold run. -/
theorem claim_C7 :
    (∀ (text : List Char) (pos : Nat)
        (ranges : List (Nat × Nat × List Char)) (l e : Nat),
        sentSearchEnd (text.drop pos) = some l →
        is_inside_style (pos + l - 1) ranges = (true, e) →
        find_sentence_boundary text pos ranges = e ∧
        ∃ s mk, (s, e, mk) ∈ ranges ∧ s < pos + l - 1 ∧ pos + l - 1 < e) ∧
    split_into_sentences ["A **B. C.** D.".toList] =
      ["A **B. C.**".toList, "D.".toList] := by
  constructor
  · intro text pos ranges l e hsearch hin
    constructor
    · unfold find_sentence_boundary
      simp only [hsearch]
      rw [hin]
      simp
    · exact is_inside_style_mem ranges _ _ hin
  · decide

/-- C7 witness: the general boundary rule evaluated on the example block,
where the period of `"B."` at position 5 lies strictly inside the bold
interval `(2, 11)`, so the boundary is 11. -/
theorem claim_C7_witness :
    sentSearchEnd (("A **B. C.** D.".toList).drop 0) = some 6 ∧
    is_inside_style (0 + 6 - 1)
      (find_inline_style_ranges ("A **B. C.** D.".toList)) =
      (true, 11) ∧
    (find_sentence_boundary ("A **B. C.** D.".toList) 0
        (find_inline_style_ranges ("A **B. C.** D.".toList)) = 11 ∧
      ∃ s mk, (s, 11, mk) ∈
          find_inline_style_ranges ("A **B. C.** D.".toList) ∧
        s < 0 + 6 - 1 ∧ 0 + 6 - 1 < 11) :=
  ⟨by decide, by decide,
    claim_C7.1 ("A **B. C.** D.".toList) 0
      (find_inline_style_ranges ("A **B. C.** D.".toList)) 6 11
      (by decide) (by decide)⟩

/-- C9: whenever the scan position is inside the line, the computed
boundary strictly exceeds it (so the one-character fallback advance also
makes strictly positive progress), and the scanning loop's result is
independent of its fuel from `text.length - pos` on — segmentation is a
total function of its input. -/
theorem claim_C9 :
    (∀ (text : List Char) (ranges : List (Nat × Nat × List Char)) (pos : Nat),
        pos < text.length →
        pos < find_sentence_boundary text pos ranges ∧
        pos < (if find_sentence_boundary text pos ranges = pos then pos + 1
          else find_sentence_boundary text pos ranges)) ∧
    (∀ (text : List Char) (ranges : List (Nat × Nat × List Char))
        (f₁ f₂ pos : Nat) (acc : List (List Char)),
        text.length - pos ≤ f₁ → text.length - pos ≤ f₂ →
        segment_line_loop text ranges f₁ pos acc =
          segment_line_loop text ranges f₂ pos acc) := by
  constructor
  · intro text ranges pos hlt
    have h := boundary_gt text ranges pos hlt
    refine ⟨h, ?_⟩
    by_cases he : find_sentence_boundary text pos ranges = pos
    · simp [he]
    · simp [he, h]
  · intro text ranges f₁ f₂ pos acc h1 h2
    exact segment_line_loop_fuel text ranges (text.length - pos) f₁ f₂ pos acc
      (Nat.le_refl _) h1 h2

/-- C9 witness: progress and fuel-independence on a concrete line. -/
theorem claim_C9_witness :
    (0 < find_sentence_boundary ("ab. cd".toList) 0 [] ∧
      0 < (if find_sentence_boundary ("ab. cd".toList) 0 [] = 0 then 0 + 1
        else find_sentence_boundary ("ab. cd".toList) 0 [])) ∧
    segment_line_loop ("ab. cd".toList) [] 6 0 [] =
      segment_line_loop ("ab. cd".toList) [] 11 0 [] :=
  ⟨claim_C9.1 ("ab. cd".toList) [] 0 (by decide),
    claim_C9.2 ("ab. cd".toList) [] 6 11 0 [] (by decide) (by decide)⟩

end MdChecker
